import Mathlib

/-!
Verification of the line-editing core of the `repl` Go library.

The Go source (`repl.go`) is shallowly embedded here:

* Go byte strings become `List Nat` (each element a byte value 0..255).
* The `lineBuf` struct becomes the `lineBuf` structure below.  The Go
  backing slice `buf` has `len(buf) == capacity`, so the model keeps the
  whole backing store as a list whose length is the capacity.
* Go `int` variables that can go negative in reachable code
  (`DeleteRange` arguments, `historyIndex`, the scan index of
  `WordDelete`) are modelled as `Int`; counters that stay non-negative
  under the buffer invariant are modelled as `Nat`.
* A Go slice read `buf[i]` is modelled as `List.getD` where the source
  index is provably in bounds; in `WordDelete`, where the source can
  index with `-1` and panic, reads go through a bounds check and the
  operation returns `Option` (`none` = runtime panic).
* Go's `copy` (memmove semantics) is modelled by explicit
  take/drop splices over the full backing store, including the bytes
  beyond `length` that the source moves around.
-/

/-- Byte value of the space character, the only word delimiter. -/
def SPACE : Nat := 32

def CTRL_A : Nat := 1
def CTRL_B : Nat := 2
def CTRL_C : Nat := 3
def CTRL_D : Nat := 4
def CTRL_E : Nat := 5
def CTRL_F : Nat := 6
def BEEP : Nat := 7
def BACKSPACE : Nat := 8
def TAB : Nat := 9
def NEWLINE : Nat := 10
def CTRL_K : Nat := 11
def CTRL_L : Nat := 12
def RETURN : Nat := 13
def CTRL_N : Nat := 14
def CTRL_P : Nat := 16
def CTRL_Y : Nat := 25
def ESCAPE : Nat := 27
def DELETE : Nat := 127
def OPEN_PAREN : Nat := 40
def CLOSE_PAREN : Nat := 41
def OPEN_BRACKET : Nat := 91
def CLOSE_BRACKET : Nat := 93
def OPEN_BRACE : Nat := 123
def CLOSE_BRACE : Nat := 125

/-- The edit buffer (`type lineBuf struct` in the source).  `buf` is the
full backing store, so the capacity is `buf.length`. -/
structure lineBuf where
  length : Nat
  cursor : Nat
  buf : List Nat
  yanked : List Nat
  yanking : Bool
  history : List (List Nat)
  historyIndex : Int
  deriving DecidableEq, Repr

/-- `newLineBuf(capacity)`: zeroed storage, empty line, no history,
history index at the "not browsing" sentinel `-1`. -/
def newLineBuf (capacity : Nat) : lineBuf :=
  ⟨0, 0, List.replicate capacity 0, [], false, [], -1⟩

/-- The buffer invariant: `0 ≤ cursor ≤ length ≤ capacity` (the lower
bound is implicit in `Nat`). -/
def BufInv (lb : lineBuf) : Prop :=
  lb.cursor ≤ lb.length ∧ lb.length ≤ lb.buf.length

instance : DecidablePred BufInv := fun lb => by unfold BufInv; infer_instance

/-- `String()`: the valid prefix `buf[0:length]`. -/
def lineBuf.String (lb : lineBuf) : List Nat :=
  lb.buf.take lb.length

/-- `IsEmpty()`. -/
def lineBuf.IsEmpty (lb : lineBuf) : Bool :=
  lb.length = 0

/-- `Clear()`. -/
def lineBuf.Clear (lb : lineBuf) : lineBuf :=
  { lb with length := 0, cursor := 0, yanking := false }

/-- `Insert(ch)`: clears the coalescing flag, grows the backing store by
10 bytes when full, splices `ch` in at the cursor (the source's
`copy(buf[cursor+1:], buf[cursor:])` shifts the whole tail of the
backing store right by one, dropping its last byte), and advances
cursor and length. -/
def lineBuf.Insert (lb0 : lineBuf) (ch : Nat) : lineBuf :=
  let lb1 := { lb0 with yanking := false }
  let lb2 := if lb1.length = lb1.buf.length
             then { lb1 with buf := lb1.buf ++ List.replicate 10 0 }
             else lb1
  let buf' := if lb2.cursor = lb2.length
              then lb2.buf.set lb2.cursor ch
              else lb2.buf.take lb2.cursor ++ ch :: (lb2.buf.drop lb2.cursor).dropLast
  { lb2 with buf := buf', cursor := lb2.cursor + 1, length := lb2.length + 1 }

/-- `InsertBytes(chs)`: repeated `Insert`. -/
def lineBuf.InsertBytes (lb : lineBuf) (chs : List Nat) : lineBuf :=
  chs.foldl lineBuf.Insert lb

/-- `Delete()`: clears the coalescing flag; when the cursor is inside the
line, shifts the tail of the backing store left by one (the byte at the
very end of the store is left in place by the source's `copy`) and
shrinks the length.  Returns whether a byte was removed. -/
def lineBuf.Delete (lb0 : lineBuf) : Bool × lineBuf :=
  let lb := { lb0 with yanking := false }
  if lb.cursor < lb.length then
    let buf' := lb.buf.take lb.cursor ++ lb.buf.drop (lb.cursor + 1)
                  ++ lb.buf.drop (lb.buf.length - 1)
    (true, { lb with buf := buf', length := lb.length - 1 })
  else
    (false, lb)

/-- `KillToEnd()`: moves `buf[cursor:length]` into the yank register
(appending when the coalescing flag is set, else replacing), truncates
the line at the cursor, and clears the coalescing flag. -/
def lineBuf.KillToEnd (lb : lineBuf) : Nat × lineBuf :=
  let n := lb.length - lb.cursor
  let span := (lb.buf.take lb.length).drop lb.cursor
  let y := if lb.yanking then lb.yanked ++ span else span
  (n, { lb with yanked := y, length := lb.cursor, yanking := false })

/-- Innermost part of `DeleteRange`, reached with `0 ≤ b` and
`e ≤ length` already established by the clamping code: when the range is
non-empty, saves the span to the yank register under the coalescing
rule, shifts the tail left (the source's `copy(buf[begin:], buf[end:])`
moves the whole rest of the backing store and touches nothing past it),
and parks the cursor at `b`. -/
def lineBuf.drCore2 (lb : lineBuf) (b e : Int) : Int × lineBuf :=
  let n := e - b
  if 0 < n then
    let bN := b.toNat
    let eN := e.toNat
    let span := (lb.buf.take eN).drop bN
    let y := if lb.yanking then lb.yanked ++ span else span
    let buf' := lb.buf.take bN ++ lb.buf.drop eN
                  ++ lb.buf.drop (bN + (lb.buf.length - eN))
    (n, { lb with yanked := y, buf := buf',
                  length := lb.length - (eN - bN), cursor := bN })
  else
    (n, lb)

/-- The `end`-clamping half of `DeleteRange`. -/
def lineBuf.drCore (lb : lineBuf) (b e0 : Int) : Int × lineBuf :=
  if e0 > (lb.length : Int) then lb.drCore2 b (lb.length : Int)
  else if e0 < 0 then (0, lb)
  else lb.drCore2 b e0

/-- `DeleteRange(begin, end)` with the source's clamping structure:
`begin < 0` is clamped to 0, `begin > length` is a no-op returning 0;
then `end > length` is clamped to `length` and `end < 0` is a no-op
returning 0. -/
def lineBuf.DeleteRange (lb : lineBuf) (b0 e0 : Int) : Int × lineBuf :=
  if b0 < 0 then lb.drCore 0 e0
  else if b0 > (lb.length : Int) then (0, lb)
  else lb.drCore b0 e0

/-- The backward space-skipping loop shared by `WordBackspace` and
`WordBackward` (`for ; i > 0; i-- { if buf[i] != SPACE { break } }`). -/
def wbSkipSpaces (buf : List Nat) : Nat → Nat
  | 0 => 0
  | i+1 => if buf.getD (i+1) 0 ≠ SPACE then i+1 else wbSkipSpaces buf i

/-- The backward space-finding loop shared by `WordBackspace` and
`WordBackward` (`for ; i > 0; i-- { if buf[i] == SPACE { ... } }`);
`none` means the loop ran to the start of the buffer. -/
def wbFindSpace (buf : List Nat) : Nat → Option Nat
  | 0 => none
  | i+1 => if buf.getD (i+1) 0 = SPACE then some (i+1) else wbFindSpace buf i

/-- `WordBackspace()`: scans like `WordBackward` and removes the scanned
span with `DeleteRange`. -/
def lineBuf.WordBackspace (lb : lineBuf) : Int × lineBuf :=
  let i0 := lb.cursor - 1
  let i1 := wbSkipSpaces lb.buf i0
  if lb.buf.getD i1 0 ≠ SPACE then
    match wbFindSpace lb.buf i1 with
    | some j => lb.DeleteRange ((j : Int) + 1) (lb.cursor : Int)
    | none => lb.DeleteRange 0 (lb.cursor : Int)
  else lb.DeleteRange 0 (lb.cursor : Int)

/-- `WordBackward()`: same scan as `WordBackspace` but only moves the
cursor. -/
def lineBuf.WordBackward (lb : lineBuf) : lineBuf :=
  let i0 := lb.cursor - 1
  let i1 := wbSkipSpaces lb.buf i0
  if lb.buf.getD i1 0 ≠ SPACE then
    match wbFindSpace lb.buf i1 with
    | some j => { lb with cursor := j + 1 }
    | none => { lb with cursor := 0 }
  else { lb with cursor := 0 }

/-- Body of the forward space-skipping loop of `WordForward`
(`for ; i < length; i++ { if buf[i] != SPACE { break } }`): the first
argument is the remaining iteration count `len - i`, made explicit so
the recursion is structural; fuel 0 is exactly the loop exit
`¬(i < len)`. -/
def wfSkipAux (buf : List Nat) : Nat → Nat → Nat
  | 0, i => i
  | k+1, i => if buf.getD i 0 ≠ SPACE then i else wfSkipAux buf k (i+1)

/-- Forward space-skipping loop of `WordForward`. -/
def wfSkip (buf : List Nat) (len i : Nat) : Nat :=
  wfSkipAux buf (len - i) i

/-- Body of the forward space-finding loop of `WordForward`, fuelled
like `wfSkipAux`; `none` is the loop running off the end of the line. -/
def wfFindAux (buf : List Nat) : Nat → Nat → Option Nat
  | 0, _ => none
  | k+1, i => if buf.getD i 0 = SPACE then some i else wfFindAux buf k (i+1)

/-- Forward space-finding loop of `WordForward`. -/
def wfFind (buf : List Nat) (len i : Nat) : Option Nat :=
  wfFindAux buf (len - i) i

/-- `WordForward()`: skip spaces at the cursor, then move the cursor to
the next space (or the end of the line). -/
def lineBuf.WordForward (lb : lineBuf) : lineBuf :=
  let i1 := wfSkip lb.buf lb.length lb.cursor
  match wfFind lb.buf lb.length i1 with
  | some j => { lb with cursor := j }
  | none => { lb with cursor := lb.length }

/-- First scan loop of `WordDelete`
(`for i = cursor - 1; i < length; i++ { if buf[i] != SPACE { break } }`).
The index is an `Int` because the source starts it at `cursor - 1`,
which is `-1` when the cursor is at the start of the line; a read
outside `[0, capacity)` is a Go runtime panic, modelled as `none`. -/
def wdLoop1Aux (buf : List Nat) : Nat → Int → Option Int
  | 0, i => some i
  | k+1, i =>
    if 0 ≤ i ∧ i < (buf.length : Int) then
      (if buf.getD i.toNat 0 ≠ SPACE then some i else wdLoop1Aux buf k (i+1))
    else none

def wdLoop1 (buf : List Nat) (len : Nat) (i : Int) : Option Int :=
  wdLoop1Aux buf ((len : Int) - i).toNat i

/-- Second scan loop of `WordDelete`: looks for the next space.
`some none` means the loop ran off the end of the line without finding
one; `none` means an out-of-bounds read (Go panic). -/
def wdLoop2Aux (buf : List Nat) : Nat → Int → Option (Option Int)
  | 0, _ => some none
  | k+1, i =>
    if 0 ≤ i ∧ i < (buf.length : Int) then
      (if buf.getD i.toNat 0 = SPACE then some (some i) else wdLoop2Aux buf k (i+1))
    else none

def wdLoop2 (buf : List Nat) (len : Nat) (i : Int) : Option (Option Int) :=
  wdLoop2Aux buf ((len : Int) - i).toNat i

/-- `WordDelete()`: scans from `cursor - 1` (not `cursor`), then deletes
`[cursor, i)` when the scan finds a space at `i`, and does nothing when
it runs off the end of the line.  Returns `none` when the source would
panic on an out-of-bounds read. -/
def lineBuf.WordDelete (lb : lineBuf) : Option (Int × lineBuf) :=
  match wdLoop1 lb.buf lb.length ((lb.cursor : Int) - 1) with
  | none => none
  | some i =>
    match wdLoop2 lb.buf lb.length i with
    | none => none
    | some (some j) => some (lb.DeleteRange (lb.cursor : Int) j)
    | some none => some (0, lb)

/-- `Yank()`: sets the coalescing flag, then re-inserts the register at
the cursor via `InsertBytes` (whose `Insert` calls clear the flag again
whenever the register is non-empty); returns the register length. -/
def lineBuf.Yank (lb : lineBuf) : Nat × lineBuf :=
  let lb1 := { lb with yanking := true }
  (lb.yanked.length, lb1.InsertBytes lb.yanked)

/-- `Backward()`. -/
def lineBuf.Backward (lb0 : lineBuf) : Bool × lineBuf :=
  let lb := { lb0 with yanking := false }
  if 0 < lb.cursor then (true, { lb with cursor := lb.cursor - 1 })
  else (false, lb)

/-- `Forward()`. -/
def lineBuf.Forward (lb0 : lineBuf) : Bool × lineBuf :=
  let lb := { lb0 with yanking := false }
  if lb.cursor < lb.length then (true, { lb with cursor := lb.cursor + 1 })
  else (false, lb)

/-- `Begin()`. -/
def lineBuf.Begin (lb : lineBuf) : lineBuf :=
  { lb with yanking := false, cursor := 0 }

/-- `End()`. -/
def lineBuf.End (lb : lineBuf) : lineBuf :=
  { lb with yanking := false, cursor := lb.length }

/-- `AddToHistory(line)`: appends and resets the browse cursor to the
"not browsing" sentinel `-1`. -/
def lineBuf.AddToHistory (lb : lineBuf) (line : List Nat) : lineBuf :=
  { lb with history := lb.history ++ [line], historyIndex := -1 }

/-- `PrevInHistory()`: steps the browse cursor one entry older (entering
the history at the newest entry when not browsing), replaces the line
with that entry, and pins at the oldest entry when stepping past it.
Returns the larger of the old and new lengths. -/
def lineBuf.PrevInHistory (lb0 : lineBuf) : Nat × lineBuf :=
  let n := lb0.length
  if lb0.history ≠ [] then
    let lb1 := if lb0.historyIndex < 0
               then { lb0 with historyIndex := (lb0.history.length : Int) - 1 }
               else { lb0 with historyIndex := lb0.historyIndex - 1 }
    if 0 ≤ lb1.historyIndex then
      let lb2 := { lb1 with length := 0, cursor := 0 }
      let lb3 := lb2.InsertBytes (lb1.history.getD lb1.historyIndex.toNat [])
      (if n < lb3.length then lb3.length else n, lb3)
    else (n, { lb1 with historyIndex := 0 })
  else (n, lb0)

/-- `NextInHistory()`: steps the browse cursor one entry newer while
browsing, replacing the line; stepping past the newest entry steps the
cursor back so it stays on the newest entry.  Returns the larger of the
old and new lengths. -/
def lineBuf.NextInHistory (lb0 : lineBuf) : Nat × lineBuf :=
  let n := lb0.length
  if lb0.history ≠ [] then
    if 0 ≤ lb0.historyIndex then
      let lb1 := { lb0 with historyIndex := lb0.historyIndex + 1 }
      if lb1.historyIndex < (lb1.history.length : Int) then
        let lb2 := { lb1 with length := 0, cursor := 0 }
        let lb3 := lb2.InsertBytes (lb1.history.getD lb1.historyIndex.toNat [])
        (if n < lb3.length then lb3.length else n, lb3)
      else (n, { lb1 with historyIndex := lb1.historyIndex - 1 })
    else (n, lb0)
  else (n, lb0)

/-! ## The key-dispatch/render loop -/

/-- Observable interactions of the loop: bytes written to the terminal,
the brief sleep of the bracket highlight, and the Handler callbacks. -/
inductive Ev where
  | out : List Nat → Ev
  | sleep : Ev
  | evalCall : List Nat → Ev
  | printResult : List Nat → Ev
  | printError : List Nat → Ev
  | completeCall : List Nat → Ev
  | resetCall : Ev
  | stop : List (List Nat) → Ev
  deriving DecidableEq, Repr

/-- The caller-supplied `ReplHandler` interface, modelled as pure
functions over a handler-private state `σ`.  `Eval` returns the printed
rendering of the result, the `more` flag and an optional error message;
`Complete` returns the addendum and the candidate list (`none` for a Go
nil slice); `Start` returns the seed history (`none` for nil).  `Stop`
is an outward call and appears as the `Ev.stop` event. -/
structure Handler (σ : Type) where
  Eval : σ → List Nat → (List Nat × Bool × Option (List Nat)) × σ
  Complete : σ → List Nat → (List Nat × Option (List (List Nat))) × σ
  Reset : σ → σ
  Prompt : σ → List Nat
  Start : σ → Option (List (List Nat)) × σ

/-- ANSI sequence emitted by `cursorBackward()`. -/
def cursorBackwardSeq : List Nat := [27, 91, 49, 68]

/-- ANSI sequence emitted by `cursorForward()`. -/
def cursorForwardSeq : List Nat := [27, 91, 49, 67]

/-- Bytes of `"*** Interrupt ***\n"`. -/
def interruptMsg : List Nat :=
  [42, 42, 42, 32, 73, 110, 116, 101, 114, 114, 117, 112, 116, 32, 42, 42, 42, 10]

/-- `drawline(prompt, lb, extra)`: carriage return, prompt, line
contents, `extra` blanks, then one cursor-left sequence per column the
terminal cursor sits right of the logical cursor. -/
def drawline (prompt : List Nat) (lb : lineBuf) (extra : Nat) : List Nat :=
  [13] ++ prompt ++ lb.String ++ List.replicate extra SPACE
    ++ (List.replicate (lb.length + extra - lb.cursor) cursorBackwardSeq).flatten

/-- `matching(ch)`: the opener for a closer, 0 otherwise. -/
def matching (ch : Nat) : Nat :=
  if ch = CLOSE_PAREN then OPEN_PAREN
  else if ch = CLOSE_BRACKET then OPEN_BRACKET
  else if ch = CLOSE_BRACE then OPEN_BRACE
  else 0

/-- The backward scan of `highlightMatch`: starting just before the
cursor, closers bump the depth, openers drop it; returns the position of
the opener where the depth reaches zero.  The Go loop decrements `i`
before each read, so it inspects positions `cursor-2` down to `0`. -/
def hmScan (buf : List Nat) (chOpen chClose : Nat) : Nat → Int → Option Nat
  | 0, _ => none
  | i+1, count =>
    let b := buf.getD i 0
    if b = chOpen then
      (if count - 1 = 0 then some i else hmScan buf chOpen chClose i (count - 1))
    else if b = chClose then hmScan buf chOpen chClose i (count + 1)
    else hmScan buf chOpen chClose i count

/-- `highlightMatch(lb, prompt, chOpen, chClose)`: when the scan finds
the matching opener, transiently redraw with the cursor there, sleep,
and redraw with the cursor restored; otherwise beep.  Returns the final
buffer alongside the emitted events. -/
def highlightMatch (lb : lineBuf) (prompt : List Nat) (chOpen chClose : Nat) :
    lineBuf × List Ev :=
  match hmScan lb.buf chOpen chClose (lb.cursor - 1) 1 with
  | some i =>
    let tmp := lb.cursor
    let lb1 := { lb with cursor := i }
    let lb2 := { lb1 with cursor := tmp }
    (lb2, [Ev.out (drawline prompt lb1 0), Ev.sleep, Ev.out (drawline prompt lb2 0)])
  | none => (lb, [Ev.out [BEEP]])

/-- Mutable state of `repl`'s loop: the buffer, the meta (ESC) flag, the
previous byte, pending completion candidates (`none` = Go nil), the
current prompt, and the handler's private state. -/
structure LoopState (σ : Type) where
  buf : lineBuf
  meta : Bool
  lastChar : Nat
  options : Option (List (List Nat))
  prompt : List Nat
  hs : σ
  deriving DecidableEq

/-- Outcome of one dispatch step: keep looping, return normally
(empty-buffer end-of-input), or crash on a Go panic. -/
inductive StepRes (σ : Type) where
  | next : LoopState σ → StepRes σ
  | done : StepRes σ
  | panicked : StepRes σ
  deriving DecidableEq

/-- The continuation state of a step, when there is one. -/
def StepRes.nextState {σ : Type} : StepRes σ → Option (LoopState σ)
  | .next st => some st
  | _ => none

/-- One iteration of the dispatch loop of `repl`, for one byte already
read successfully. -/
def replStep {σ : Type} (H : Handler σ) (st0 : LoopState σ) (ch : Nat) :
    List Ev × StepRes σ :=
  if st0.meta then
    let st := { st0 with meta := false }
    if ch = DELETE then
      let (n, b) := st.buf.WordBackspace
      ([Ev.out (drawline st.prompt b n.toNat)], .next { st with buf := b })
    else if ch = 100 then
      match st.buf.WordDelete with
      | none => ([], .panicked)
      | some (n, b) =>
        ([Ev.out (drawline st.prompt b n.toNat)], .next { st with buf := b })
    else if ch = 98 then
      let b := st.buf.WordBackward
      ([Ev.out (drawline st.prompt b 0)], .next { st with buf := b })
    else if ch = 102 then
      let b := st.buf.WordForward
      ([Ev.out (drawline st.prompt b 0)], .next { st with buf := b })
    else ([Ev.out [BEEP]], .next st)
  else
    let st := st0
    if ch = ESCAPE then ([], .next { st with meta := true })
    else if ch = CTRL_D then
      if st.buf.IsEmpty then ([Ev.out [NEWLINE], Ev.stop st.buf.history], .done)
      else
        let (_, b) := st.buf.Delete
        ([Ev.out (drawline st.prompt b 1)], .next { st with buf := b })
    else if ch = CTRL_A then
      let b := st.buf.Begin
      ([Ev.out (drawline st.prompt b 0)], .next { st with buf := b })
    else if ch = CTRL_E then
      let b := st.buf.End
      ([Ev.out (drawline st.prompt b 0)], .next { st with buf := b })
    else if ch = CTRL_F then
      let (moved, b) := st.buf.Forward
      if moved then
        ([Ev.out cursorForwardSeq, Ev.out (drawline st.prompt b 0)],
         .next { st with buf := b })
      else ([], .next { st with buf := b })
    else if ch = CTRL_B then
      let (moved, b) := st.buf.Backward
      if moved then
        ([Ev.out cursorBackwardSeq, Ev.out (drawline st.prompt b 0)],
         .next { st with buf := b })
      else ([], .next { st with buf := b })
    else if ch = CTRL_C then
      let b := st.buf.Clear
      let hs1 := H.Reset st.hs
      let p := H.Prompt hs1
      ([Ev.out interruptMsg, Ev.resetCall, Ev.out p],
       .next { st with buf := b, hs := hs1, prompt := p })
    else if ch = CTRL_K then
      let (n, b) := st.buf.KillToEnd
      ([Ev.out (drawline st.prompt b n)], .next { st with buf := b })
    else if ch = CTRL_Y then
      let (n, b) := st.buf.Yank
      ([Ev.out (drawline st.prompt b n)], .next { st with buf := b })
    else if ch = CTRL_L then
      ([Ev.out [NEWLINE], Ev.out (drawline st.prompt st.buf 0)], .next st)
    else if ch = CTRL_N then
      let (n, b) := st.buf.NextInHistory
      ([Ev.out (drawline st.prompt b n)], .next { st with buf := b })
    else if ch = CTRL_P then
      let (n, b) := st.buf.PrevInHistory
      ([Ev.out (drawline st.prompt b n)], .next { st with buf := b })
    else if ch = TAB then
      if st.lastChar = TAB then
        match st.options with
        | some opts =>
          ((opts.map (fun o => Ev.out ([NEWLINE] ++ o)))
             ++ [Ev.out [NEWLINE], Ev.out (drawline st.prompt st.buf 0), Ev.out [BEEP]],
           .next st)
        | none => ([Ev.out [BEEP]], .next st)
      else
        let ((addendum, opts), hs1) := H.Complete st.hs (st.buf.buf.take st.buf.cursor)
        let b1 := if 0 < addendum.length then st.buf.InsertBytes addendum else st.buf
        let optLen := match opts with | none => 0 | some l => l.length
        if optLen = 1 then
          let b2 := b1.Insert SPACE
          ([Ev.completeCall (st.buf.buf.take st.buf.cursor),
            Ev.out (drawline st.prompt b2 0)],
           .next { st with buf := b2, options := none, hs := hs1 })
        else
          ([Ev.completeCall (st.buf.buf.take st.buf.cursor), Ev.out [BEEP],
            Ev.out (drawline st.prompt b1 0)],
           .next { st with buf := b1, options := opts, hs := hs1 })
    else if ch = DELETE then
      let (moved, b1) := st.buf.Backward
      if moved then
        let (_, b2) := b1.Delete
        ([Ev.out (drawline st.prompt b2 1)], .next { st with buf := b2 })
      else ([Ev.out [BEEP]], .next { st with buf := b1 })
    else if ch = RETURN then
      let nlEv : List Ev := if st.buf.IsEmpty then [] else [Ev.out [NEWLINE]]
      let s := st.buf.String
      let b1 := (st.buf.AddToHistory s).Clear
      let ((result, more, merr), hs1) := H.Eval st.hs s
      match merr with
      | some emsg =>
        let b2 := b1.Clear
        let p := H.Prompt hs1
        (nlEv ++ [Ev.evalCall s, Ev.printError emsg, Ev.out p],
         .next { st with buf := b2, hs := hs1, prompt := p })
      | none =>
        if more then
          (nlEv ++ [Ev.evalCall s], .next { st with buf := b1, hs := hs1, prompt := [] })
        else
          let p := H.Prompt hs1
          (nlEv ++ [Ev.evalCall s, Ev.printResult result, Ev.out p],
           .next { st with buf := b1, hs := hs1, prompt := p })
    else
      if SPACE ≤ ch ∧ ch < 127 then
        let b1 := st.buf.Insert ch
        let ev1 := Ev.out (drawline st.prompt b1 0)
        let m := matching ch
        if m ≠ 0 then
          let (b2, evs2) := highlightMatch b1 st.prompt m ch
          ([ev1] ++ evs2, .next { st with buf := b2 })
        else ([ev1], .next { st with buf := b1 })
      else ([Ev.out [BEEP]], .next st)

/-- Outcome of running the loop on a finite trace of read results. -/
inductive LoopRes (ε : Type) where
  | outOfInput : LoopRes ε
  | normal : LoopRes ε
  | fail : ε → LoopRes ε
  | panicked : LoopRes ε
  deriving DecidableEq

/-- The read-dispatch loop of `repl`, driven by a finite list of
`getChar` results.  A read error invokes `Handler.Stop` with the
accumulated history and makes `repl` return that error.  `lastChar` is
updated at the bottom of every completed iteration, as in the source. -/
def replLoop {σ ε : Type} (H : Handler σ) :
    List (Except ε Nat) → LoopState σ → List Ev × LoopRes ε
  | [], _ => ([], .outOfInput)
  | (Except.error e) :: _, st => ([Ev.stop st.buf.history], .fail e)
  | (Except.ok ch) :: rest, st =>
    match (replStep H st ch).2 with
    | .next st' =>
      ((replStep H st ch).1 ++ (replLoop H rest { st' with lastChar := ch }).1,
       (replLoop H rest { st' with lastChar := ch }).2)
    | .done => ((replStep H st ch).1, .normal)
    | .panicked => ((replStep H st ch).1, .panicked)

/-- Runs the loop over a list of successfully read bytes, as long as
every step continues; `none` when some step exits or panics. -/
def runOks {σ : Type} (H : Handler σ) :
    List Nat → LoopState σ → Option (List Ev × LoopState σ)
  | [], st => some ([], st)
  | ch :: rest, st =>
    match (replStep H st ch).2 with
    | .next st' =>
      (runOks H rest { st' with lastChar := ch }).map
        (fun p => ((replStep H st ch).1 ++ p.1, p.2))
    | _ => none

/-- The `repl` function: builds a 1024-byte buffer, seeds the history
from `Handler.Start`, prints the initial prompt, and runs the loop. -/
def repl {σ ε : Type} (H : Handler σ) (s0 : σ) (inp : List (Except ε Nat)) :
    List Ev × LoopRes ε :=
  let (seed, s1) := H.Start s0
  let buf0 := newLineBuf 1024
  let buf1 := match seed with
              | some h => { buf0 with history := h }
              | none => buf0
  let p := H.Prompt s1
  let st : LoopState σ := ⟨buf1, false, 0, none, p, s1⟩
  let (evs, r) := replLoop H inp st
  (Ev.out p :: evs, r)

/-- The exported `REPL` function.  `cbreakErr` is the outcome of the
external `makeCbreak` call: on failure that error is returned and the
loop never runs; on success `repl` runs but its return value is
discarded and `REPL` returns nil (`none`). -/
def REPL {σ ε : Type} (H : Handler σ) (s0 : σ) (cbreakErr : Option ε)
    (inp : List (Except ε Nat)) : List Ev × Option ε :=
  match cbreakErr with
  | some e => ([], some e)
  | none => ((repl H s0 inp).1, none)

/-- A trivial handler over a unit state, used for concrete runs. -/
def Htriv : Handler Unit where
  Eval := fun s _ => (([], false, none), s)
  Complete := fun s _ => (([], none), s)
  Reset := fun s => s
  Prompt := fun _ => []
  Start := fun s => (none, s)

/-! ## Lemmas about `Insert` and `InsertBytes` -/

theorem take_set_succ {α : Type} (X : List α) (c : Nat) (ch : α) (h : c < X.length) :
    (X.set c ch).take (c+1) = X.take c ++ [ch] := by
  rw [List.set_eq_take_cons_drop _ h, List.take_append_eq_append_take]
  have h1 : (List.take c X).length = c := by simp [List.length_take]; omega
  rw [h1, List.take_take]
  have h2 : (c+1) ⊓ c = c := by omega
  rw [h2]
  have h3 : c + 1 - c = 1 := by omega
  rw [h3]
  simp

theorem Insert_length (lb : lineBuf) (ch : Nat) :
    (lb.Insert ch).length = lb.length + 1 := by
  unfold lineBuf.Insert
  dsimp only
  split <;> rfl

theorem Insert_cursor (lb : lineBuf) (ch : Nat) :
    (lb.Insert ch).cursor = lb.cursor + 1 := by
  unfold lineBuf.Insert
  dsimp only
  split <;> rfl

theorem Insert_yanking (lb : lineBuf) (ch : Nat) :
    (lb.Insert ch).yanking = false := by
  unfold lineBuf.Insert
  dsimp only
  split <;> rfl

theorem Insert_yanked (lb : lineBuf) (ch : Nat) :
    (lb.Insert ch).yanked = lb.yanked := by
  unfold lineBuf.Insert
  dsimp only
  split <;> rfl

theorem Insert_history (lb : lineBuf) (ch : Nat) :
    (lb.Insert ch).history = lb.history := by
  unfold lineBuf.Insert
  dsimp only
  split <;> rfl

theorem Insert_historyIndex (lb : lineBuf) (ch : Nat) :
    (lb.Insert ch).historyIndex = lb.historyIndex := by
  unfold lineBuf.Insert
  dsimp only
  split <;> rfl

theorem Insert_inv (lb : lineBuf) (ch : Nat) (h : BufInv lb) :
    BufInv (lb.Insert ch) := by
  obtain ⟨h1, h2⟩ := h
  unfold lineBuf.Insert BufInv
  dsimp only
  split <;> split <;>
    simp_all [List.length_set, List.length_take, List.length_append,
      List.length_dropLast, List.length_drop, List.length_replicate] <;>
    omega

theorem Insert_String_at_end (lb : lineBuf) (ch : Nat)
    (hc : lb.cursor = lb.length) (h : BufInv lb) :
    (lb.Insert ch).String = lb.String ++ [ch] := by
  obtain ⟨h1, h2⟩ := h
  unfold lineBuf.Insert lineBuf.String
  dsimp only
  split <;> rename_i hfull <;> dsimp only <;> rw [hc]
  · rw [take_set_succ _ _ _ (by simp [List.length_append]; omega)]
    rw [List.take_append_of_le_length (by omega)]
  · rw [take_set_succ _ _ _ (by omega)]

theorem InsertBytes_inv (lb : lineBuf) (chs : List Nat) (h : BufInv lb) :
    BufInv (lb.InsertBytes chs) := by
  induction chs generalizing lb with
  | nil => exact h
  | cons c rest ih => exact ih _ (Insert_inv lb c h)

theorem InsertBytes_at_end (chs : List Nat) (lb : lineBuf)
    (hc : lb.cursor = lb.length) (h : BufInv lb) :
    (lb.InsertBytes chs).String = lb.String ++ chs ∧
      (lb.InsertBytes chs).length = lb.length + chs.length ∧
      (lb.InsertBytes chs).cursor = lb.cursor + chs.length := by
  induction chs generalizing lb with
  | nil => simp [lineBuf.InsertBytes]
  | cons c rest ih =>
    have hstep := Insert_String_at_end lb c hc h
    have hinv := Insert_inv lb c h
    have hc' : (lb.Insert c).cursor = (lb.Insert c).length := by
      rw [Insert_cursor, Insert_length, hc]
    obtain ⟨e1, e2, e3⟩ := ih (lb.Insert c) hc' hinv
    refine ⟨?_, ?_, ?_⟩
    · show ((lb.Insert c).InsertBytes rest).String = _
      rw [e1, hstep]
      simp
    · show ((lb.Insert c).InsertBytes rest).length = _
      rw [e2, Insert_length]
      simp [Nat.add_assoc, Nat.add_comm 1 rest.length]
    · show ((lb.Insert c).InsertBytes rest).cursor = _
      rw [e3, Insert_cursor]
      simp [Nat.add_assoc, Nat.add_comm 1 rest.length]

theorem InsertBytes_yanking (chs : List Nat) (lb : lineBuf) (hne : chs ≠ []) :
    (lb.InsertBytes chs).yanking = false := by
  induction chs generalizing lb with
  | nil => exact absurd rfl hne
  | cons c rest ih =>
    show ((lb.Insert c).InsertBytes rest).yanking = false
    cases rest with
    | nil => exact Insert_yanking lb c
    | cons d ds => exact ih _ (by simp)

theorem InsertBytes_yanked (chs : List Nat) (lb : lineBuf) :
    (lb.InsertBytes chs).yanked = lb.yanked := by
  induction chs generalizing lb with
  | nil => rfl
  | cons c rest ih =>
    show ((lb.Insert c).InsertBytes rest).yanked = _
    rw [ih, Insert_yanked]

theorem InsertBytes_history (chs : List Nat) (lb : lineBuf) :
    (lb.InsertBytes chs).history = lb.history := by
  induction chs generalizing lb with
  | nil => rfl
  | cons c rest ih =>
    show ((lb.Insert c).InsertBytes rest).history = _
    rw [ih, Insert_history]

theorem InsertBytes_historyIndex (chs : List Nat) (lb : lineBuf) :
    (lb.InsertBytes chs).historyIndex = lb.historyIndex := by
  induction chs generalizing lb with
  | nil => rfl
  | cons c rest ih =>
    show ((lb.Insert c).InsertBytes rest).historyIndex = _
    rw [ih, Insert_historyIndex]

/-! ## Invariant preservation -/

theorem Delete_inv (lb : lineBuf) (h : BufInv lb) : BufInv (lb.Delete).2 := by
  obtain ⟨h1, h2⟩ := h
  unfold lineBuf.Delete BufInv
  dsimp only
  split <;> rename_i hlt
  · constructor
    · show lb.cursor ≤ lb.length - 1
      omega
    · show lb.length - 1 ≤ (lb.buf.take lb.cursor ++ lb.buf.drop (lb.cursor + 1)
          ++ lb.buf.drop (lb.buf.length - 1)).length
      simp only [List.length_append, List.length_take, List.length_drop]
      omega
  · exact ⟨h1, h2⟩

theorem KillToEnd_inv (lb : lineBuf) (h : BufInv lb) : BufInv (lb.KillToEnd).2 := by
  obtain ⟨h1, h2⟩ := h
  unfold lineBuf.KillToEnd BufInv
  dsimp only
  exact ⟨le_rfl, by omega⟩

theorem drCore2_inv (lb : lineBuf) (b e : Int) (h : BufInv lb)
    (hb : 0 ≤ b) (hbl : b ≤ (lb.length : Int)) (hel : e ≤ (lb.length : Int)) :
    BufInv (lb.drCore2 b e).2 := by
  obtain ⟨h1, h2⟩ := h
  unfold lineBuf.drCore2 BufInv
  dsimp only
  split <;> rename_i hn
  · constructor
    · dsimp only
      omega
    · dsimp only
      simp only [List.length_append, List.length_take, List.length_drop]
      omega
  · exact ⟨h1, h2⟩

theorem drCore_inv (lb : lineBuf) (b e0 : Int) (h : BufInv lb)
    (hb : 0 ≤ b) (hbl : b ≤ (lb.length : Int)) :
    BufInv (lb.drCore b e0).2 := by
  unfold lineBuf.drCore
  split
  · exact drCore2_inv lb b _ h hb hbl le_rfl
  · split
    · exact h
    · exact drCore2_inv lb b e0 h hb hbl (by omega)

theorem DeleteRange_inv (lb : lineBuf) (b0 e0 : Int) (h : BufInv lb) :
    BufInv (lb.DeleteRange b0 e0).2 := by
  unfold lineBuf.DeleteRange
  split
  · exact drCore_inv lb 0 e0 h le_rfl (by omega)
  · split
    · exact h
    · exact drCore_inv lb b0 e0 h (by omega) (by omega)

theorem wbSkipSpaces_le (buf : List Nat) : ∀ i, wbSkipSpaces buf i ≤ i := by
  intro i
  induction i with
  | zero => simp [wbSkipSpaces]
  | succ i ih =>
    rw [wbSkipSpaces]
    split
    · exact le_rfl
    · omega

theorem wbFindSpace_le (buf : List Nat) :
    ∀ i j, wbFindSpace buf i = some j → 1 ≤ j ∧ j ≤ i := by
  intro i
  induction i with
  | zero => intro j h; simp [wbFindSpace] at h
  | succ i ih =>
    intro j h
    rw [wbFindSpace] at h
    split at h
    · injection h with e
      omega
    · have := ih j h
      omega

theorem WordBackward_inv (lb : lineBuf) (h : BufInv lb) : BufInv (lb.WordBackward) := by
  obtain ⟨h1, h2⟩ := h
  unfold lineBuf.WordBackward BufInv
  dsimp only
  split
  · split <;> rename_i hfind
    · dsimp only
      have hle := wbSkipSpaces_le lb.buf (lb.cursor - 1)
      have hj := wbFindSpace_le lb.buf (wbSkipSpaces lb.buf (lb.cursor - 1)) _ hfind
      exact ⟨by omega, h2⟩
    · exact ⟨Nat.zero_le _, h2⟩
  · exact ⟨Nat.zero_le _, h2⟩

theorem WordBackspace_eq_DeleteRange (lb : lineBuf) :
    lb.WordBackspace = lb.DeleteRange ((lb.WordBackward).cursor : Int) (lb.cursor : Int) := by
  unfold lineBuf.WordBackspace lineBuf.WordBackward
  dsimp only
  split
  · split <;> dsimp only <;> norm_cast
  · dsimp only
    norm_cast

theorem WordBackspace_inv (lb : lineBuf) (h : BufInv lb) : BufInv (lb.WordBackspace).2 := by
  rw [WordBackspace_eq_DeleteRange]
  exact DeleteRange_inv lb _ _ h

theorem wfFindAux_lt (buf : List Nat) (len : Nat) :
    ∀ k i j, k ≤ len - i → wfFindAux buf k i = some j → j < len := by
  intro k
  induction k with
  | zero =>
    intro i j hk h
    simp [wfFindAux] at h
  | succ k ih =>
    intro i j hk h
    simp only [wfFindAux] at h
    split at h
    · injection h with e
      omega
    · exact ih (i+1) j (by omega) h

theorem wfFind_lt (buf : List Nat) (len : Nat) :
    ∀ i j, wfFind buf len i = some j → j < len := by
  intro i j h
  exact wfFindAux_lt buf len (len - i) i j le_rfl h

theorem WordForward_inv (lb : lineBuf) (h : BufInv lb) : BufInv (lb.WordForward) := by
  obtain ⟨h1, h2⟩ := h
  unfold lineBuf.WordForward BufInv
  dsimp only
  split <;> rename_i heq
  · rename_i j
    have := wfFind_lt lb.buf lb.length _ j heq
    refine ⟨?_, h2⟩
    show j ≤ lb.length
    omega
  · exact ⟨le_rfl, h2⟩

theorem WordDelete_inv (lb : lineBuf) (h : BufInv lb) :
    BufInv ((lb.WordDelete.getD (0, lb)).2) := by
  unfold lineBuf.WordDelete
  split
  · exact h
  · split
    · exact h
    · exact DeleteRange_inv lb _ _ h
    · exact h

theorem Yank_inv (lb : lineBuf) (h : BufInv lb) : BufInv (lb.Yank).2 := by
  unfold lineBuf.Yank
  dsimp only
  exact InsertBytes_inv _ _ (by exact h)

theorem Backward_inv (lb : lineBuf) (h : BufInv lb) : BufInv (lb.Backward).2 := by
  obtain ⟨h1, h2⟩ := h
  unfold lineBuf.Backward BufInv
  dsimp only
  split <;> refine ⟨?_, h2⟩
  · show lb.cursor - 1 ≤ lb.length
    omega
  · show lb.cursor ≤ lb.length
    omega

theorem Forward_inv (lb : lineBuf) (h : BufInv lb) : BufInv (lb.Forward).2 := by
  obtain ⟨h1, h2⟩ := h
  unfold lineBuf.Forward BufInv
  dsimp only
  split <;> rename_i hc <;> refine ⟨?_, h2⟩
  · show lb.cursor + 1 ≤ lb.length
    exact hc
  · show lb.cursor ≤ lb.length
    omega

theorem Begin_inv (lb : lineBuf) (h : BufInv lb) : BufInv (lb.Begin) := by
  obtain ⟨h1, h2⟩ := h
  exact ⟨Nat.zero_le _, h2⟩

theorem End_inv (lb : lineBuf) (h : BufInv lb) : BufInv (lb.End) := by
  obtain ⟨h1, h2⟩ := h
  exact ⟨le_rfl, h2⟩

theorem Clear_inv (lb : lineBuf) (h : BufInv lb) : BufInv (lb.Clear) := by
  obtain ⟨h1, h2⟩ := h
  exact ⟨le_rfl, Nat.zero_le _⟩

theorem AddToHistory_inv (lb : lineBuf) (line : List Nat) (h : BufInv lb) :
    BufInv (lb.AddToHistory line) := h

theorem PrevInHistory_inv (lb : lineBuf) (h : BufInv lb) :
    BufInv (lb.PrevInHistory).2 := by
  obtain ⟨h1, h2⟩ := h
  unfold lineBuf.PrevInHistory
  dsimp only
  split
  · split <;> split <;> dsimp only <;>
      first
        | exact InsertBytes_inv _ _ ⟨le_rfl, Nat.zero_le _⟩
        | exact ⟨h1, h2⟩
  · exact ⟨h1, h2⟩

theorem NextInHistory_inv (lb : lineBuf) (h : BufInv lb) :
    BufInv (lb.NextInHistory).2 := by
  obtain ⟨h1, h2⟩ := h
  unfold lineBuf.NextInHistory
  dsimp only
  split
  · split
    · split <;> dsimp only <;>
        first
          | exact InsertBytes_inv _ _ ⟨le_rfl, Nat.zero_le _⟩
          | exact ⟨h1, h2⟩
    · exact ⟨h1, h2⟩
  · exact ⟨h1, h2⟩

/-- A concrete well-formed buffer used to witness hypotheses: content
`"ab c"`, cursor 2, capacity 6. -/
def lbWitness : lineBuf :=
  ⟨4, 2, [97, 98, 32, 99, 0, 0], [120], false, [[97]], -1⟩

/-- Claim C1: every Edit Buffer operation (Insert, InsertBytes, Delete,
KillToEnd, DeleteRange, WordBackspace, WordDelete, WordForward,
WordBackward, Yank, Backward, Forward, Begin, End, Clear, PrevInHistory,
NextInHistory, AddToHistory), applied to any buffer state satisfying
`0 ≤ cursor ≤ length ≤ capacity`, yields a state satisfying the same
bounds again.  For `WordDelete`, whose embedding returns `Option`
because the source can crash, the bounds hold for whatever state it
returns. -/
theorem c1_invariant_preserved (lb : lineBuf) (ch : Nat) (chs : List Nat)
    (b0 e0 : Int) (line : List Nat) (h : BufInv lb) :
    BufInv (lb.Insert ch) ∧ BufInv (lb.InsertBytes chs) ∧
    BufInv (lb.Delete).2 ∧ BufInv (lb.KillToEnd).2 ∧
    BufInv (lb.DeleteRange b0 e0).2 ∧ BufInv (lb.WordBackspace).2 ∧
    BufInv ((lb.WordDelete.getD (0, lb)).2) ∧
    BufInv (lb.WordForward) ∧ BufInv (lb.WordBackward) ∧
    BufInv (lb.Yank).2 ∧ BufInv (lb.Backward).2 ∧ BufInv (lb.Forward).2 ∧
    BufInv (lb.Begin) ∧ BufInv (lb.End) ∧ BufInv (lb.Clear) ∧
    BufInv (lb.PrevInHistory).2 ∧ BufInv (lb.NextInHistory).2 ∧
    BufInv (lb.AddToHistory line) :=
  ⟨Insert_inv lb ch h, InsertBytes_inv lb chs h, Delete_inv lb h,
   KillToEnd_inv lb h, DeleteRange_inv lb b0 e0 h, WordBackspace_inv lb h,
   WordDelete_inv lb h, WordForward_inv lb h, WordBackward_inv lb h,
   Yank_inv lb h, Backward_inv lb h, Forward_inv lb h, Begin_inv lb h,
   End_inv lb h, Clear_inv lb h, PrevInHistory_inv lb h,
   NextInHistory_inv lb h, AddToHistory_inv lb line h⟩

/-- Witness for C1 at a concrete buffer, byte, byte list, range and
history line. -/
theorem c1_witness :
    BufInv (lbWitness.Insert 100) ∧ BufInv (lbWitness.InsertBytes [100, 101]) ∧
    BufInv (lbWitness.Delete).2 ∧ BufInv (lbWitness.KillToEnd).2 ∧
    BufInv (lbWitness.DeleteRange 1 3).2 ∧ BufInv (lbWitness.WordBackspace).2 ∧
    BufInv ((lbWitness.WordDelete.getD (0, lbWitness)).2) ∧
    BufInv (lbWitness.WordForward) ∧ BufInv (lbWitness.WordBackward) ∧
    BufInv (lbWitness.Yank).2 ∧ BufInv (lbWitness.Backward).2 ∧
    BufInv (lbWitness.Forward).2 ∧
    BufInv (lbWitness.Begin) ∧ BufInv (lbWitness.End) ∧ BufInv (lbWitness.Clear) ∧
    BufInv (lbWitness.PrevInHistory).2 ∧ BufInv (lbWitness.NextInHistory).2 ∧
    BufInv (lbWitness.AddToHistory [98]) :=
  c1_invariant_preserved lbWitness 100 [100, 101] 1 3 [98] (by decide)

/-! ## Claim C2: kill/yank coalescing -/

theorem KillToEnd_yanking (lb : lineBuf) : (lb.KillToEnd).2.yanking = false := rfl

theorem KillToEnd_yanked_of_not_yanking (lb : lineBuf) (hy : lb.yanking = false) :
    (lb.KillToEnd).2.yanked = (lb.buf.take lb.length).drop lb.cursor := by
  unfold lineBuf.KillToEnd
  simp [hy]

theorem KillToEnd_twice_yanked (lb : lineBuf) :
    ((lb.KillToEnd).2.KillToEnd).2.yanked = [] := by
  rw [KillToEnd_yanked_of_not_yanking _ (KillToEnd_yanking lb)]
  show ((lb.KillToEnd).2.buf.take (lb.KillToEnd).2.length).drop (lb.KillToEnd).2.cursor = []
  unfold lineBuf.KillToEnd
  dsimp only
  rw [List.drop_take]
  simp

/-- A concrete buffer refuting C2: content `"ab"`, cursor 0, empty
register, coalescing flag clear. -/
def lbC2 : lineBuf := ⟨2, 0, [97, 98, 0, 0], [], false, [], -1⟩

/-- Counterexample to claim C2 as stated.  On `lbC2` the first
`KillToEnd()` kills the span `"ab"` and the second kills the empty span,
so the claimed register after two consecutive kills is the concatenation
`"ab"`.  In the code, `KillToEnd` leaves the coalescing flag `false`
(not `true`), and the register after the second kill is the empty
string, not `"ab"`. -/
theorem c2_counterexample :
    (lbC2.KillToEnd).2.yanking ≠ true ∧
      ((lbC2.KillToEnd).2.KillToEnd).2.yanked ≠ [97, 98] := by
  decide

/-- Claim C2, amended to what the code does: `KillToEnd` leaves the
coalescing flag `false`, so two consecutive `KillToEnd()` calls leave
the register equal to the second killed span, which is empty.  `Yank`
sets the flag but its re-insertion clears it again whenever the register
is non-empty (every `Insert` clears the flag), so a kill immediately
after a `Yank` of a non-empty register also replaces the register with
just the newly killed span. -/
theorem c2_amended (lb : lineBuf) :
    (lb.KillToEnd).2.yanking = false ∧
    ((lb.KillToEnd).2.KillToEnd).2.yanked = [] ∧
    (lb.yanked ≠ [] → (lb.Yank).2.yanking = false) ∧
    (lb.yanked ≠ [] →
      ((lb.Yank).2.KillToEnd).2.yanked
        = ((lb.Yank).2.buf.take (lb.Yank).2.length).drop (lb.Yank).2.cursor) := by
  refine ⟨KillToEnd_yanking lb, KillToEnd_twice_yanked lb, ?_, ?_⟩
  · intro hne
    unfold lineBuf.Yank
    dsimp only
    exact InsertBytes_yanking _ _ hne
  · intro hne
    apply KillToEnd_yanked_of_not_yanking
    unfold lineBuf.Yank
    dsimp only
    exact InsertBytes_yanking _ _ hne

/-- Witness for the hypothesised parts of the amended C2, at a buffer
whose register is non-empty. -/
theorem c2_witness :
    (lbWitness.Yank).2.yanking = false ∧
    ((lbWitness.Yank).2.KillToEnd).2.yanked
      = ((lbWitness.Yank).2.buf.take (lbWitness.Yank).2.length).drop
          (lbWitness.Yank).2.cursor :=
  ⟨(c2_amended lbWitness).2.2.1 (by decide),
   (c2_amended lbWitness).2.2.2 (by decide)⟩

/-! ## Claim C3: kill/yank round-trip -/

/-- A concrete buffer refuting C3: content `"ab"`, cursor 1, register
`"x"`, coalescing flag set. -/
def lbC3 : lineBuf := ⟨2, 1, [97, 98, 0, 0], [120], true, [], -1⟩

/-- Counterexample to claim C3 as stated: on `lbC3` (coalescing flag
set, non-empty register) `KillToEnd()` appends the killed span to the
old register contents, so the subsequent `Yank()` re-inserts the old
register contents too; the content becomes `"axb"` and the length 3,
not the original `"ab"` of length 2. -/
theorem c3_counterexample :
    ((lbC3.KillToEnd).2.Yank).2.String ≠ lbC3.String ∧
      ((lbC3.KillToEnd).2.Yank).2.length ≠ lbC3.length := by
  decide

/-- Claim C3, amended with the hypothesis the counterexample forces:
for every well-formed buffer whose coalescing flag is clear,
`KillToEnd()` immediately followed by `Yank()` restores the buffer
content and the length exactly. -/
theorem c3_amended (lb : lineBuf) (h : BufInv lb) (hy : lb.yanking = false) :
    ((lb.KillToEnd).2.Yank).2.String = lb.String ∧
      ((lb.KillToEnd).2.Yank).2.length = lb.length := by
  obtain ⟨h1, h2⟩ := h
  have hspan := KillToEnd_yanked_of_not_yanking lb hy
  set span := (lb.buf.take lb.length).drop lb.cursor with hspandef
  have hspanlen : span.length = lb.length - lb.cursor := by
    rw [hspandef]
    simp [List.length_drop, List.length_take]
    omega
  unfold lineBuf.Yank
  dsimp only
  rw [hspan]
  have hstinv : BufInv { lb.KillToEnd.2 with yanked := span, yanking := true } := by
    refine ⟨le_rfl, ?_⟩
    show lb.cursor ≤ lb.buf.length
    omega
  obtain ⟨e1, e2, e3⟩ :=
    InsertBytes_at_end span { lb.KillToEnd.2 with yanked := span, yanking := true }
      rfl hstinv
  refine ⟨?_, ?_⟩
  · rw [e1]
    show lb.buf.take lb.cursor ++ span = lb.buf.take lb.length
    rw [hspandef]
    have hpre : lb.buf.take lb.cursor = (lb.buf.take lb.length).take lb.cursor := by
      rw [List.take_take]
      congr 1
      omega
    rw [hpre, List.take_append_drop]
  · rw [e2]
    show lb.cursor + span.length = lb.length
    omega

/-- Witness for the amended C3 at a concrete well-formed buffer with a
clear coalescing flag. -/
theorem c3_witness :
    ((lbWitness.KillToEnd).2.Yank).2.String = lbWitness.String ∧
      ((lbWitness.KillToEnd).2.Yank).2.length = lbWitness.length :=
  c3_amended lbWitness (by decide) (by decide)

/-! ## Claim C4: DeleteRange -/

theorem splice_take {α : Type} (buf : List α) (L b e : Nat) (hb : b ≤ L) (he : e ≤ L)
    (hbe : b ≤ e) (hL : L ≤ buf.length) :
    (buf.take b ++ buf.drop e ++ buf.drop (b + (buf.length - e))).take (L - (e - b))
      = (buf.take L).take b ++ (buf.take L).drop e := by
  rw [List.take_append_eq_append_take, List.take_append_eq_append_take]
  simp only [List.length_append, List.length_take, List.length_drop]
  have m0 : b ⊓ buf.length = b := by omega
  rw [m0]
  have m1 : L - (e - b) - (b + (buf.length - e)) = 0 := by omega
  rw [m1]
  simp only [List.take_zero, List.append_nil]
  rw [List.take_take]
  have m2 : (L - (e - b)) ⊓ b = b := by omega
  rw [m2]
  rw [List.take_take]
  have m3 : b ⊓ L = b := by omega
  rw [m3]
  rw [List.drop_take]
  have m4 : L - (e - b) - b = L - e := by omega
  rw [m4]

theorem drCore2_spec (lb : lineBuf) (b e : Int) (h : BufInv lb)
    (hb : 0 ≤ b) (he : e ≤ (lb.length : Int)) (hlt : b < e) :
    (lb.drCore2 b e).1 = e - b ∧
    (lb.drCore2 b e).2.cursor = b.toNat ∧
    (lb.drCore2 b e).2.length = lb.length - (e.toNat - b.toNat) ∧
    (lb.drCore2 b e).2.String = lb.String.take b.toNat ++ lb.String.drop e.toNat ∧
    (lb.drCore2 b e).2.yanked =
      (if lb.yanking then lb.yanked else []) ++ ((lb.String.take e.toNat).drop b.toNat) := by
  obtain ⟨h1, h2⟩ := h
  unfold lineBuf.drCore2
  dsimp only
  rw [if_pos (by omega : (0 : Int) < e - b)]
  refine ⟨rfl, rfl, rfl, ?_, ?_⟩
  · show (lb.buf.take b.toNat ++ lb.buf.drop e.toNat
        ++ lb.buf.drop (b.toNat + (lb.buf.length - e.toNat))).take
          (lb.length - (e.toNat - b.toNat))
      = (lb.buf.take lb.length).take b.toNat ++ (lb.buf.take lb.length).drop e.toNat
    exact splice_take lb.buf lb.length b.toNat e.toNat
      (by omega) (by omega) (by omega) h2
  · show (if lb.yanking then lb.yanked ++ (lb.buf.take e.toNat).drop b.toNat
          else (lb.buf.take e.toNat).drop b.toNat)
      = (if lb.yanking then lb.yanked else [])
          ++ (((lb.buf.take lb.length).take e.toNat).drop b.toNat)
    rw [List.take_take]
    have m4 : e.toNat ⊓ lb.length = e.toNat := by omega
    rw [m4]
    cases lb.yanking <;> simp

/-- Claim C4, as stated: with `begin > length` or `end < 0`,
`DeleteRange` returns 0 and changes nothing; otherwise `begin` is
clamped up to 0 and `end` down to `length`, and when the clamped range
`[bc, ec)` is non-empty the bytes in it are removed, the removed text is
stored into or merged with the yank register under the coalescing rule,
the cursor is set to `bc`, and the removed count `ec - bc` is
returned. -/
theorem c4_deleteRange_spec (lb : lineBuf) (b0 e0 : Int) (bc ec : Nat)
    (h : BufInv lb) :
    ((b0 > (lb.length : Int) ∨ e0 < 0) → lb.DeleteRange b0 e0 = (0, lb)) ∧
    (b0 ≤ (lb.length : Int) → 0 ≤ e0 →
      (bc : Int) = max b0 0 → (ec : Int) = min e0 (lb.length : Int) →
      bc < ec →
      (lb.DeleteRange b0 e0).1 = ((ec - bc : Nat) : Int) ∧
      (lb.DeleteRange b0 e0).2.cursor = bc ∧
      (lb.DeleteRange b0 e0).2.length = lb.length - (ec - bc) ∧
      (lb.DeleteRange b0 e0).2.String = lb.String.take bc ++ lb.String.drop ec ∧
      (lb.DeleteRange b0 e0).2.yanked =
        (if lb.yanking then lb.yanked else []) ++ ((lb.String.take ec).drop bc)) := by
  have hinv := h
  obtain ⟨h1, h2⟩ := h
  constructor
  · intro hrej
    unfold lineBuf.DeleteRange lineBuf.drCore
    rcases hrej with hb | he
    · rw [if_neg (by omega), if_pos hb]
    · split_ifs <;> first | rfl | omega
  · intro hble bhe hbc hec hlt
    have hbceq : lb.DeleteRange b0 e0 = lb.drCore2 (bc : Int) (ec : Int) := by
      unfold lineBuf.DeleteRange lineBuf.drCore
      by_cases hb0 : b0 < 0
      · rw [if_pos hb0]
        by_cases he0 : e0 > (lb.length : Int)
        · rw [if_pos he0]
          have e1 : (bc : Int) = 0 := by omega
          have e2 : (ec : Int) = (lb.length : Int) := by omega
          rw [e1, e2]
        · rw [if_neg he0, if_neg (by omega : ¬ e0 < 0)]
          have e1 : (bc : Int) = 0 := by omega
          have e2 : (ec : Int) = e0 := by omega
          rw [e1, e2]
      · rw [if_neg hb0, if_neg (by omega : ¬ b0 > (lb.length : Int))]
        by_cases he0 : e0 > (lb.length : Int)
        · rw [if_pos he0]
          have e1 : (bc : Int) = b0 := by omega
          have e2 : (ec : Int) = (lb.length : Int) := by omega
          rw [e1, e2]
        · rw [if_neg he0, if_neg (by omega : ¬ e0 < 0)]
          have e1 : (bc : Int) = b0 := by omega
          have e2 : (ec : Int) = e0 := by omega
          rw [e1, e2]
    rw [hbceq]
    have hspec := drCore2_spec lb (bc : Int) (ec : Int) hinv
      (by omega) (by omega) (by omega)
    obtain ⟨s1, s2, s3, s4, s5⟩ := hspec
    simp only [Int.toNat_natCast] at s1 s2 s3 s4 s5
    refine ⟨?_, s2, s3, s4, s5⟩
    rw [s1]
    omega

/-- Witness for C4 at a concrete buffer and range: removing `[1, 3)`
from `"ab c"`. -/
theorem c4_witness :
    (lbWitness.DeleteRange 1 3).1 = ((2 : Nat) : Int) ∧
    (lbWitness.DeleteRange 1 3).2.cursor = 1 ∧
    (lbWitness.DeleteRange 1 3).2.length = lbWitness.length - 2 ∧
    (lbWitness.DeleteRange 1 3).2.String
      = lbWitness.String.take 1 ++ lbWitness.String.drop 3 ∧
    (lbWitness.DeleteRange 1 3).2.yanked =
      (if lbWitness.yanking then lbWitness.yanked else [])
        ++ ((lbWitness.String.take 3).drop 1) :=
  (c4_deleteRange_spec lbWitness 1 3 1 3 (by decide)).2
    (by decide) (by decide) (by decide) (by decide) (by decide)

/-! ## Claim C5: word deletion vs the word-motion scan -/

theorem wfSkipAux_le (buf : List Nat) : ∀ k i, wfSkipAux buf k i ≤ i + k := by
  intro k
  induction k with
  | zero => intro i; simp [wfSkipAux]
  | succ k ih =>
    intro i
    simp only [wfSkipAux]
    split
    · omega
    · have := ih (i+1)
      omega

theorem wdLoop1Aux_eq (buf : List Nat) (len : Nat) (hlen : len ≤ buf.length) :
    ∀ k (i : Nat), i + k ≤ len →
      wdLoop1Aux buf k (i : Int) = some ((wfSkipAux buf k i : Nat) : Int) := by
  intro k
  induction k with
  | zero => intro i hk; simp [wdLoop1Aux, wfSkipAux]
  | succ k ih =>
    intro i hk
    simp only [wdLoop1Aux, wfSkipAux]
    rw [if_pos (by constructor <;> omega : 0 ≤ (i : Int) ∧ (i : Int) < (buf.length : Int))]
    rw [Int.toNat_natCast]
    split
    · rfl
    · have hcast : (i : Int) + 1 = ((i + 1 : Nat) : Int) := by omega
      rw [hcast]
      exact ih (i+1) (by omega)

theorem wdLoop2Aux_eq (buf : List Nat) (len : Nat) (hlen : len ≤ buf.length) :
    ∀ k (i : Nat), i + k ≤ len →
      wdLoop2Aux buf k (i : Int)
        = some ((wfFindAux buf k i).map (fun j => (j : Int))) := by
  intro k
  induction k with
  | zero => intro i hk; simp [wdLoop2Aux, wfFindAux]
  | succ k ih =>
    intro i hk
    simp only [wdLoop2Aux, wfFindAux]
    rw [if_pos (by constructor <;> omega : 0 ≤ (i : Int) ∧ (i : Int) < (buf.length : Int))]
    rw [Int.toNat_natCast]
    split
    · rfl
    · have hcast : (i : Int) + 1 = ((i + 1 : Nat) : Int) := by omega
      rw [hcast]
      exact ih (i+1) (by omega)

/-- A concrete buffer refuting C5: content `"ab cd"`, cursor 2 (between
`b` and the space). -/
def lbC5 : lineBuf := ⟨5, 2, [97, 98, 32, 99, 100, 0], [], false, [], -1⟩

/-- Counterexample to claim C5 as stated.  On `lbC5` the word-boundary
scan of `WordForward` moves the cursor from 2 to 5 (skip the space, then
the word `"cd"`), so the claim demands that `WordDelete` remove the
3-byte span `[2, 5)`.  The code's `WordDelete` starts its scan at
`cursor - 1` (the byte `b`), immediately stops, finds the space at
position 2 and issues `DeleteRange(2, 2)`: it removes nothing and
returns 0. -/
theorem c5_counterexample :
    lbC5.WordDelete = some (0, lbC5) ∧ (lbC5.WordForward).cursor = 5 ∧
      lbC5.cursor = 2 := by
  decide

/-- Claim C5, amended to the code's behaviour.  `WordBackspace` does
perform exactly the `WordBackward` scan and deletes the scanned span via
`DeleteRange` — that half of the claim holds verbatim.  `WordDelete`,
however, starts the forward scan at `cursor - 1` instead of `cursor`
(out of bounds when `cursor = 0`); for `cursor ≥ 1` it runs the
`WordForward`-style loops from `cursor - 1` and deletes
`[cursor, j)` only when the scan finds a space at `j`, returning 0 and
changing nothing when the scan runs off the end of the line. -/
theorem c5_amended (lb : lineBuf) (h : BufInv lb) :
    lb.WordBackspace = lb.DeleteRange ((lb.WordBackward).cursor : Int) (lb.cursor : Int) ∧
    (1 ≤ lb.cursor →
      lb.WordDelete = some (
        match wfFind lb.buf lb.length (wfSkip lb.buf lb.length (lb.cursor - 1)) with
        | some j => lb.DeleteRange (lb.cursor : Int) (j : Int)
        | none => (0, lb))) := by
  obtain ⟨h1, h2⟩ := h
  refine ⟨WordBackspace_eq_DeleteRange lb, ?_⟩
  intro hc
  have hcast1 : ((lb.cursor : Int) - 1) = ((lb.cursor - 1 : Nat) : Int) := by omega
  have e1 : wdLoop1 lb.buf lb.length ((lb.cursor - 1 : Nat) : Int)
      = some ((wfSkip lb.buf lb.length (lb.cursor - 1) : Nat) : Int) := by
    unfold wdLoop1 wfSkip
    have hfuel : ((lb.length : Int) - ((lb.cursor - 1 : Nat) : Int)).toNat
        = lb.length - (lb.cursor - 1) := by omega
    rw [hfuel]
    exact wdLoop1Aux_eq lb.buf lb.length h2 (lb.length - (lb.cursor - 1))
      (lb.cursor - 1) (by omega)
  have hskiple : wfSkip lb.buf lb.length (lb.cursor - 1) ≤ lb.length := by
    unfold wfSkip
    have := wfSkipAux_le lb.buf (lb.length - (lb.cursor - 1)) (lb.cursor - 1)
    omega
  have e2 : wdLoop2 lb.buf lb.length ((wfSkip lb.buf lb.length (lb.cursor - 1) : Nat) : Int)
      = some ((wfFind lb.buf lb.length (wfSkip lb.buf lb.length (lb.cursor - 1))).map
          (fun j => (j : Int))) := by
    unfold wdLoop2 wfFind
    have hfuel : ((lb.length : Int) - ((wfSkip lb.buf lb.length (lb.cursor - 1) : Nat) : Int)).toNat
        = lb.length - wfSkip lb.buf lb.length (lb.cursor - 1) := by omega
    rw [hfuel]
    exact wdLoop2Aux_eq lb.buf lb.length h2 (lb.length - wfSkip lb.buf lb.length (lb.cursor - 1))
      (wfSkip lb.buf lb.length (lb.cursor - 1)) (by omega)
  unfold lineBuf.WordDelete
  rw [hcast1, e1]
  dsimp only
  rw [e2]
  cases hf : wfFind lb.buf lb.length (wfSkip lb.buf lb.length (lb.cursor - 1)) with
  | none => rfl
  | some j => rfl

/-- Witness for the amended C5 at a concrete buffer with `cursor = 2`. -/
theorem c5_witness :
    lbWitness.WordBackspace
      = lbWitness.DeleteRange ((lbWitness.WordBackward).cursor : Int) (lbWitness.cursor : Int) ∧
    lbWitness.WordDelete = some (
      match wfFind lbWitness.buf lbWitness.length
          (wfSkip lbWitness.buf lbWitness.length (lbWitness.cursor - 1)) with
      | some j => lbWitness.DeleteRange (lbWitness.cursor : Int) (j : Int)
      | none => (0, lbWitness)) :=
  ⟨(c5_amended lbWitness (by decide)).1,
   (c5_amended lbWitness (by decide)).2 (by decide)⟩

/-! ## Claim C6: history browsing scenario -/

/-- Fresh empty buffer, with the loop's 1024-byte capacity, after
`"a"`, `"b"`, `"c"` were added to the history in order. -/
def histStage0 : lineBuf :=
  (((newLineBuf 1024).AddToHistory [97]).AddToHistory [98]).AddToHistory [99]

def histStage1 : lineBuf := (histStage0.PrevInHistory).2
def histStage2 : lineBuf := (histStage1.PrevInHistory).2
def histStage3 : lineBuf := (histStage2.PrevInHistory).2
def histStage4 : lineBuf := (histStage3.PrevInHistory).2
def histStage5 : lineBuf := (histStage4.NextInHistory).2
def histStage6 : lineBuf := (histStage5.NextInHistory).2
def histStage7 : lineBuf := (histStage6.NextInHistory).2

set_option maxRecDepth 100000 in
/-- Counterexample to claim C6 as stated: after the three
`PrevInHistory()` calls, the pinned fourth one, and three
`NextInHistory()` calls, the history browse cursor is 2 (pinned at the
newest entry `"c"`), not the "not browsing" sentinel `-1` that the claim
requires the third `NextInHistory()` to restore. -/
theorem c6_counterexample : histStage7.historyIndex ≠ -1 := by
  decide

set_option maxRecDepth 100000 in
/-- Claim C6, amended in its last step: three `PrevInHistory()` calls
set the content to `"c"`, `"b"`, `"a"`; a fourth leaves it pinned at
`"a"`; two `NextInHistory()` calls set `"b"` then `"c"`; the third
`NextInHistory()` leaves the buffer content unchanged but pins the
history cursor at the newest entry (index 2) instead of returning it to
the "not browsing" sentinel `-1`. -/
theorem c6_amended :
    histStage1.String = [99] ∧ histStage2.String = [98] ∧
    histStage3.String = [97] ∧ histStage4.String = [97] ∧
    histStage5.String = [98] ∧ histStage6.String = [99] ∧
    histStage7.String = histStage6.String ∧
    histStage7.historyIndex = 2 ∧
    (newLineBuf 1024).historyIndex = -1 ∧ histStage0.historyIndex = -1 := by
  decide

/-! ## Claim C9: WordDelete memory safety -/

/-- A well-formed buffer with content `"a"` and cursor 0. -/
def lbC9 : lineBuf := ⟨1, 0, [97, 0, 0, 0], [], false, [], -1⟩

/-- Claim C9 is refuted by the code: on a well-formed non-empty buffer
with `cursor = 0`, `WordDelete` starts its scan at `i = cursor - 1 = -1`
and the loop guard `i < length` holds, so the very first access
`buf[i]` indexes the backing slice at `-1` — a Go runtime panic,
modelled as `none`.  The first loop's out-of-bounds branch is therefore
reachable under the stated precondition, and this evaluation exhibits
it. -/
theorem c9_out_of_bounds :
    BufInv lbC9 ∧ lbC9.cursor = 0 ∧ 0 < lbC9.length ∧ lbC9.WordDelete = none := by
  decide

/-! ## Claim C8: bracket-match highlight is a pure frame effect -/

/-- Claim C8: `highlightMatch` never permanently changes the buffer —
the buffer it leaves behind equals the one it was given (cursor, length
and content included), because the matched branch restores the cursor
after the transient redraws; and when the scan finds no matching opener
it only emits the audible error signal. -/
theorem c8_highlight_frame (lb : lineBuf) (prompt : List Nat) (chOpen chClose : Nat) :
    (highlightMatch lb prompt chOpen chClose).1 = lb ∧
    (hmScan lb.buf chOpen chClose (lb.cursor - 1) 1 = none →
      (highlightMatch lb prompt chOpen chClose).2 = [Ev.out [BEEP]]) := by
  unfold highlightMatch
  cases hs : hmScan lb.buf chOpen chClose (lb.cursor - 1) 1 with
  | none => exact ⟨rfl, fun _ => rfl⟩
  | some i =>
    refine ⟨rfl, ?_⟩
    intro hnone
    exact absurd hnone (by simp)

/-- An unmatched closer: content `"a)"`, cursor 2 (just after the
`)`). -/
def lbC8 : lineBuf := ⟨2, 2, [97, 41, 0, 0], [], false, [], -1⟩

/-- Witness for C8 on a buffer whose closing paren has no matching
opener: the buffer is unchanged and the only event is the beep. -/
theorem c8_witness :
    (highlightMatch lbC8 [62] OPEN_PAREN CLOSE_PAREN).1 = lbC8 ∧
    (highlightMatch lbC8 [62] OPEN_PAREN CLOSE_PAREN).2 = [Ev.out [BEEP]] :=
  ⟨(c8_highlight_frame lbC8 [62] OPEN_PAREN CLOSE_PAREN).1,
   (c8_highlight_frame lbC8 [62] OPEN_PAREN CLOSE_PAREN).2 (by decide)⟩

/-! ## Claim C7: read errors end the session -/

/-- Whenever the loop has consumed a prefix of successful reads and the
next read fails, `Handler.Stop` is invoked with the history accumulated
at that point and the loop function `repl` returns the read error. -/
theorem replLoop_fail_after_oks {σ ε : Type} (H : Handler σ) (e : ε)
    (rest : List (Except ε Nat)) :
    ∀ (pre : List Nat) (st : LoopState σ) (evs : List Ev) (stf : LoopState σ),
      runOks H pre st = some (evs, stf) →
      replLoop H (pre.map Except.ok ++ Except.error e :: rest) st
        = (evs ++ [Ev.stop stf.buf.history], LoopRes.fail e) := by
  intro pre
  induction pre with
  | nil =>
    intro st evs stf h
    simp only [runOks, Option.some_inj, Prod.mk.injEq] at h
    obtain ⟨h1, h2⟩ := h
    subst h1 h2
    simp [replLoop]
  | cons ch tl ih =>
    intro st evs stf h
    simp only [runOks] at h
    simp only [List.map_cons, List.cons_append, replLoop]
    cases hres : (replStep H st ch).2 with
    | next st1 =>
      rw [hres] at h
      dsimp only at h ⊢
      cases hrec : runOks H tl { st1 with lastChar := ch } with
      | none => rw [hrec] at h; simp at h
      | some p =>
        rw [hrec] at h
        simp only [Option.map_some', Option.some_inj] at h
        rw [Prod.ext_iff] at h
        obtain ⟨h1, h2⟩ := h
        dsimp only at h1 h2
        simp only [List.append_eq]
        rw [ih { st1 with lastChar := ch } p.1 p.2 hrec]
        dsimp only
        rw [← h1, ← h2, List.append_assoc]
    | done => rw [hres] at h; dsimp only at h; simp at h
    | panicked => rw [hres] at h; dsimp only at h; simp at h

/-- Counterexample to the propagation half of claim C7: run `REPL` with
a successful terminal-mode switch and an input whose very first read
fails with error `0`.  The session does end — the prompt is printed,
`Handler.Stop` is called with the (empty) history — but `REPL` returns
nil (`none`), not the read error, because it discards the return value
of the inner loop `repl`. -/
theorem c7_counterexample :
    (REPL Htriv () (none : Option Nat) [Except.error 0]).1
        = [Ev.out [], Ev.stop []] ∧
      (REPL Htriv () (none : Option Nat) [Except.error 0]).2 ≠ some 0 := by
  constructor
  · rfl
  · decide

/-- Claim C7, amended: whenever reading a byte fails during the loop,
`Handler.Stop` is invoked with the accumulated history and the inner
loop function `repl` returns the read error; but the exported `REPL`
discards that return value and returns nil to its caller whenever the
terminal-mode switch succeeded. -/
theorem c7_amended {σ ε : Type} (H : Handler σ) (s0 : σ) (pre : List Nat)
    (st : LoopState σ) (evs : List Ev) (stf : LoopState σ) (e : ε)
    (rest inp : List (Except ε Nat))
    (h : runOks H pre st = some (evs, stf)) :
    replLoop H (pre.map Except.ok ++ Except.error e :: rest) st
      = (evs ++ [Ev.stop stf.buf.history], LoopRes.fail e) ∧
    (REPL H s0 (none : Option ε) inp).2 = none :=
  ⟨replLoop_fail_after_oks H e rest pre st evs stf h, rfl⟩

/-- Initial loop state of a session under the trivial handler (small
4-byte buffer for concrete evaluation). -/
def stW0 : LoopState Unit := ⟨newLineBuf 4, false, 0, none, [], ()⟩

/-- Witness for the amended C7: the empty prefix of successful reads
followed by a failed read with error 7. -/
theorem c7_witness :
    replLoop Htriv (([] : List Nat).map Except.ok ++ Except.error (7 : Nat) :: []) stW0
      = ([] ++ [Ev.stop stW0.buf.history], LoopRes.fail 7) ∧
    (REPL Htriv () (none : Option Nat) []).2 = none :=
  c7_amended Htriv () [] stW0 [] stW0 7 [] [] rfl

/-! ## Claim C10: Return on an empty buffer -/

/-- Claim C10: pressing Return with an empty buffer still appends the
empty string to history (resetting the history browse cursor to the
"not browsing" sentinel `-1`) and invokes `Handler.Eval` with the empty
string; only the echoed newline before evaluation is suppressed, so the
first emitted event is the `Eval` call itself, and the buffer is left
cleared. -/
theorem c10_empty_return {σ : Type} (H : Handler σ) (st : LoopState σ)
    (hm : st.meta = false) (he : st.buf.length = 0) :
    (replStep H st RETURN).1.head? = some (Ev.evalCall []) ∧
    ((replStep H st RETURN).2.nextState.map
        (fun s => (s.buf.history, s.buf.historyIndex, s.buf.length)))
      = some (st.buf.history ++ [[]], (-1 : Int), 0) := by
  unfold replStep
  rw [hm]
  simp only [Bool.false_eq_true, if_false]
  rw [if_neg (by decide : ¬ (RETURN = ESCAPE)),
      if_neg (by decide : ¬ (RETURN = CTRL_D)),
      if_neg (by decide : ¬ (RETURN = CTRL_A)),
      if_neg (by decide : ¬ (RETURN = CTRL_E)),
      if_neg (by decide : ¬ (RETURN = CTRL_F)),
      if_neg (by decide : ¬ (RETURN = CTRL_B)),
      if_neg (by decide : ¬ (RETURN = CTRL_C)),
      if_neg (by decide : ¬ (RETURN = CTRL_K)),
      if_neg (by decide : ¬ (RETURN = CTRL_Y)),
      if_neg (by decide : ¬ (RETURN = CTRL_L)),
      if_neg (by decide : ¬ (RETURN = CTRL_N)),
      if_neg (by decide : ¬ (RETURN = CTRL_P)),
      if_neg (by decide : ¬ (RETURN = TAB)),
      if_neg (by decide : ¬ (RETURN = DELETE))]
  simp only [if_true]
  have hemp : st.buf.IsEmpty = true := by
    simp [lineBuf.IsEmpty, he]
  have hstr : st.buf.String = [] := by
    simp [lineBuf.String, he]
  rw [hemp, hstr]
  split
  · refine ⟨rfl, ?_⟩
    simp [StepRes.nextState, lineBuf.AddToHistory, lineBuf.Clear]
  · split
    · refine ⟨rfl, ?_⟩
      simp [StepRes.nextState, lineBuf.AddToHistory, lineBuf.Clear]
    · refine ⟨rfl, ?_⟩
      simp [StepRes.nextState, lineBuf.AddToHistory, lineBuf.Clear]

/-- Witness for C10: the initial (empty-buffer) state under the trivial
handler. -/
theorem c10_witness :
    (replStep Htriv stW0 RETURN).1.head? = some (Ev.evalCall []) ∧
    ((replStep Htriv stW0 RETURN).2.nextState.map
        (fun s => (s.buf.history, s.buf.historyIndex, s.buf.length)))
      = some (stW0.buf.history ++ [[]], (-1 : Int), 0) :=
  c10_empty_return Htriv stW0 (by decide) (by decide)
